import Mathlib

/-!
Verification of the zodcli command-line argument schema layer
(`src/zodcli/types.ts`) and of the schema-driven parser engine that the
repository's design documents describe for it.

The TypeScript source ships the data model as type definitions:
`QueryBase` (one argument schema), `CommandDef` (a command schema),
`SubCommandMap` (a registry), and the discriminated result unions
`CommandResult`, `SubCommandResult`, `SafeParseResult` and
`SubCommandSafeParseResult`.  Those types are embedded below directly.

The parser engine itself (`parse` / `parseSubcommand`) is not part of the
shipped source; it is modelled here from the specification's algorithm
(tokenize, help short-circuit, per-argument binding and decoding, error
aggregation, subcommand dispatch).  Definitions modelled that way carry a
doc comment saying so.

Every definition is executable so that concrete runs can be checked by
`decide` / `rfl`.  TS string operations are re-implemented over `List Char`
to keep kernel reduction available.
-/

namespace Zodcli

/-- Decoded typed value produced by an argument's validator
(the shallow stand-in for `z.infer` of the `type` field of `QueryBase`). -/
inductive Value where
  | vstr (s : String)
  | vbool (b : Bool)
  | vnat (n : Nat)
  | vlist (ss : List String)
  deriving DecidableEq, Repr

/-- Raw value bound to an argument before validation: an attached string,
a bare boolean flag, the remaining positional tokens, or nothing. -/
inductive RawValue where
  | str (s : String)
  | flagTrue
  | list (ss : List String)
  | missing
  deriving DecidableEq, Repr

/-- The `positional` field of `QueryBase` in types.ts: `number | "..."`. -/
inductive PosSpec where
  | fixed (i : Nat)
  | variadic
  deriving DecidableEq, Repr

/-- `QueryBase` from src/zodcli/types.ts: a required validator (`type`)
plus optional `positional`, `short` and `description` fields.  The source
declares `short?: string` (any string). -/
structure QueryBase where
  type : RawValue → Except String Value
  positional : Option PosSpec
  short : Option String
  description : Option String

/-- `CommandDef` from src/zodcli/types.ts: name, description and the
`args` mapping, embedded as an ordered association list. -/
structure CommandDef where
  name : String
  description : String
  args : List (String × QueryBase)

/-- The `error` payload of result values: a generic `Error` or a
`z.ZodError`-style aggregate of per-argument issues (key, message). -/
inductive ErrorValue where
  | generic (message : String)
  | zod (issues : List (String × String))
  deriving DecidableEq, Repr

/-- `CommandResult<T>` from src/zodcli/types.ts, the discriminated union
`success | help | error`, with success data as the decoded key-value map. -/
inductive CommandResult where
  | success (data : List (String × Value))
  | help (helpText : String)
  | error (error : ErrorValue) (helpText : String)
  deriving DecidableEq, Repr

/-- The `type` discriminant string of a `CommandResult` value. -/
def CommandResult.tag : CommandResult → String
  | .success _ => "success"
  | .help _ => "help"
  | .error _ _ => "error"

/-- The property names of a `CommandResult` value, read off the object
literal types in src/zodcli/types.ts lines 28-31. -/
def CommandResult.fields : CommandResult → List String
  | .success _ => ["type", "data"]
  | .help _ => ["type", "helpText"]
  | .error _ _ => ["type", "error", "helpText"]

/-- `SubCommandResult` from src/zodcli/types.ts lines 33-36. -/
inductive SubCommandResult where
  | subcommand (name : String) (result : CommandResult)
  | help (helpText : String)
  | error (error : ErrorValue) (helpText : String)
  deriving DecidableEq, Repr

/-- The `type` discriminant string of a `SubCommandResult` value. -/
def SubCommandResult.tag : SubCommandResult → String
  | .subcommand _ _ => "subcommand"
  | .help _ => "help"
  | .error _ _ => "error"

/-- The property names of a `SubCommandResult` value, read off the object
literal types in src/zodcli/types.ts lines 33-36. -/
def SubCommandResult.fields : SubCommandResult → List String
  | .subcommand _ _ => ["type", "name", "result"]
  | .help _ => ["type", "helpText"]
  | .error _ _ => ["type", "error", "helpText"]

/-- The discriminant of the inner result carried by a `subcommand` wrapper,
if any. -/
def SubCommandResult.innerTag : SubCommandResult → Option String
  | .subcommand _ r => some r.tag
  | .help _ => none
  | .error _ _ => none

/-- `SafeParseResult<T> = ParseSuccess<T> | ParseError` from
src/zodcli/types.ts lines 53-65: `ok: true` with data, or `ok: false`
with only an error. -/
inductive SafeParseResult where
  | success (data : List (String × Value))
  | error (error : ErrorValue)
  deriving DecidableEq, Repr

/-- The `ok` discriminant of a `SafeParseResult` value. -/
def SafeParseResult.ok : SafeParseResult → Bool
  | .success _ => true
  | .error _ => false

/-- The property names of a `SafeParseResult` value, read off
src/zodcli/types.ts lines 53-62. -/
def SafeParseResult.fields : SafeParseResult → List String
  | .success _ => ["ok", "data"]
  | .error _ => ["ok", "error"]

/-- `SubCommandSafeParseResult = SubCommandParseSuccess | ParseError` from
src/zodcli/types.ts lines 68-77: `ok: true` with `{command, data}`, or
`ok: false` with only an error. -/
inductive SubCommandSafeParseResult where
  | success (command : String) (data : List (String × Value))
  | error (error : ErrorValue)
  deriving DecidableEq, Repr

/-- The `ok` discriminant of a `SubCommandSafeParseResult` value. -/
def SubCommandSafeParseResult.ok : SubCommandSafeParseResult → Bool
  | .success _ _ => true
  | .error _ => false

/-- The property names of a `SubCommandSafeParseResult` value, read off
src/zodcli/types.ts lines 59-77. -/
def SubCommandSafeParseResult.fields : SubCommandSafeParseResult → List String
  | .success _ _ => ["ok", "data"]
  | .error _ => ["ok", "error"]

/-- A tokenized flag: a long (`--name`) or short (`-x`) flag name. -/
inductive FlagName where
  | long (s : String)
  | short (s : String)
  deriving DecidableEq, Repr

/-- A tokenized flag occurrence with its attached value, if any. -/
structure CliFlag where
  fname : FlagName
  value : Option String
  deriving DecidableEq, Repr

/-- Splits a character list at the first `=`, yielding the flag name part
and, when an `=` is present, the attached value part. -/
def splitEqChars : List Char → List Char × Option (List Char)
  | [] => ([], none)
  | c :: cs =>
    if c = '=' then ([], some cs)
    else
      let r := splitEqChars cs
      (c :: r.1, r.2)

/-- Whether a token starts with a dash (making it a flag token). -/
def startsDash (t : String) : Bool :=
  match t.data with
  | '-' :: _ => true
  | _ => false

/-- Modelled from the spec: classification of a single token, section 4.2
step 1 of the design document.  `--name` / `--name=value` are long flags,
`-x` / `-xvalue` are short flags, everything else (including a bare `-`)
is a positional token. -/
def flagOf (t : String) : Option CliFlag :=
  match t.data with
  | '-' :: '-' :: cs =>
    let r := splitEqChars cs
    some ⟨.long ⟨r.1⟩, r.2.map (fun v => ⟨v⟩)⟩
  | '-' :: c :: [] => some ⟨.short ⟨[c]⟩, none⟩
  | '-' :: c :: cs => some ⟨.short ⟨[c]⟩, some ⟨cs⟩⟩
  | _ => none

/-- Modelled from the spec: tokenization of the raw argument vector into
flag tokens and positional tokens, preserving positional order (section
4.2 step 1).  A flag token without an attached value takes the following
token as its value when that token is not itself flag-shaped, matching
the `--name Alice` convention of the spec's example scenario A. -/
def tokenize : List String → List CliFlag × List String
  | [] => ([], [])
  | [t] =>
    match flagOf t with
    | some f => ([f], [])
    | none => ([], [t])
  | t :: next :: rest =>
    match flagOf t with
    | some f =>
      if f.value = none ∧ startsDash next = false then
        let r := tokenize rest
        (⟨f.fname, some next⟩ :: r.1, r.2)
      else
        let r := tokenize (next :: rest)
        (f :: r.1, r.2)
    | none =>
      let r := tokenize (next :: rest)
      (r.1, t :: r.2)

/-- Looks up a flag occurrence addressing the given argument, by long name
`--key` or by the argument's declared short alias. -/
def findFlag : List CliFlag → String → Option String → Option (Option String)
  | [], _, _ => none
  | f :: fs, key, sh =>
    match f.fname with
    | .long n => if n = key then some f.value else findFlag fs key sh
    | .short n => if some n = sh then some f.value else findFlag fs key sh

/-- The fixed positional indices claimed by the declared arguments. -/
def claimedIndices (args : List (String × QueryBase)) : List Nat :=
  args.filterMap fun kq =>
    match kq.2.positional with
    | some (.fixed i) => some i
    | _ => none

/-- The positional tokens (counted from index `i`) not claimed by any
fixed positional binding; these feed the variadic argument. -/
def unclaimedFrom : List String → Nat → List Nat → List String
  | [], _, _ => []
  | p :: ps, i, claimed =>
    if i ∈ claimed then unclaimedFrom ps (i + 1) claimed
    else p :: unclaimedFrom ps (i + 1) claimed

/-- Modelled from the spec: binding resolution for one argument, section
4.1 of the design document.  Flag binding wins, then a fixed positional
index, then the variadic marker, else the argument is missing. -/
def bindRaw (flags : List CliFlag) (positionals : List String)
    (claimed : List Nat) (key : String) (q : QueryBase) : RawValue :=
  match findFlag flags key q.short with
  | some (some v) => .str v
  | some none => .flagTrue
  | none =>
    match q.positional with
    | some (.fixed i) =>
      match positionals[i]? with
      | some v => .str v
      | none => .missing
    | some .variadic => .list (unclaimedFrom positionals 0 claimed)
    | none => .missing

/-- Modelled from the spec: the per-argument decode pass, section 4.2
step 3 — every declared argument, in declared order, is bound and run
through its validator. -/
def argResults (cmd : CommandDef) (tokens : List String) :
    List (String × Except String Value) :=
  cmd.args.map fun kq =>
    (kq.1,
     kq.2.type
       (bindRaw (tokenize tokens).1 (tokenize tokens).2
         (claimedIndices cmd.args) kq.1 kq.2))

/-- The decode failures among the per-argument results, in declared order. -/
def collectIssues : List (String × Except String Value) → List (String × String)
  | [] => []
  | (k, .error m) :: rs => (k, m) :: collectIssues rs
  | (_, .ok _) :: rs => collectIssues rs

/-- The decoded values among the per-argument results, in declared order. -/
def collectData : List (String × Except String Value) → List (String × Value)
  | [] => []
  | (k, .ok v) :: rs => (k, v) :: collectData rs
  | (_, .error _) :: rs => collectData rs

/-- The keys of the per-argument results that failed to decode. -/
def errKeys : List (String × Except String Value) → List String
  | [] => []
  | (k, .error _) :: rs => k :: errKeys rs
  | (_, .ok _) :: rs => errKeys rs

/-- The argument keys of a command that fail to decode on a given token
sequence, in declared order. -/
def failingKeys (cmd : CommandDef) (tokens : List String) : List String :=
  errKeys (argResults cmd tokens)

/-- Concatenation of lines, each terminated by a newline. -/
def joinLines : List String → String
  | [] => ""
  | l :: ls => l ++ "\n" ++ joinLines ls

/-- One help line for a declared argument: its long flag, short alias and
description. -/
def argHelpLine (kq : String × QueryBase) : String :=
  "--" ++ kq.1 ++
    (match kq.2.short with
     | some s => ", -" ++ s
     | none => "") ++
    (match kq.2.description with
     | some d => "  " ++ d
     | none => "")

/-- Modelled from the spec: help text rendered from the command schema's
name, description and each argument's alias/description, in the declared
order of the `args` mapping (section 4.2 step 2). -/
def renderHelp (cmd : CommandDef) : String :=
  cmd.name ++ " - " ++ cmd.description ++ "\n" ++
    joinLines (cmd.args.map argHelpLine)

/-- Modelled from the spec: the parser engine `parse(rawArgs)` of section
4.2, which the shipped source declares result types for but does not
implement.  Help flags short-circuit; otherwise every declared argument is
bound and decoded, failures are aggregated into one structured error
carrying rendered help text, and full success yields the decoded data map. -/
def parse (cmd : CommandDef) (tokens : List String) : CommandResult :=
  if "--help" ∈ tokens ∨ "-h" ∈ tokens then
    .help (renderHelp cmd)
  else if collectIssues (argResults cmd tokens) = [] then
    .success (collectData (argResults cmd tokens))
  else
    .error (.zod (collectIssues (argResults cmd tokens))) (renderHelp cmd)

/-- Help text for a subcommand registry: the registered names, one per
line. -/
def subHelp (reg : List (String × CommandDef)) : String :=
  "Available subcommands:" ++ "\n" ++ joinLines (reg.map Prod.fst)

/-- The top-level error message for an unrecognized subcommand name. -/
def unknownMsg (t : String) : String :=
  "Unknown subcommand: " ++ t

/-- Modelled from the spec: the subcommand dispatcher
`parseSubcommand(rawArgs)` of section 4.3, which the shipped source
declares result types for but does not implement.  An empty vector or a
leading help flag yields top-level help; an unregistered first token
yields a top-level error naming it; a registered name delegates the
remaining tokens to the matched command's `parse` and wraps the result. -/
def parseSubcommand (reg : List (String × CommandDef)) (tokens : List String) :
    SubCommandResult :=
  match tokens with
  | [] => .help (subHelp reg)
  | t :: rest =>
    if t = "--help" ∨ t = "-h" then .help (subHelp reg)
    else
      match List.lookup t reg with
      | some cmd => .subcommand t (parse cmd rest)
      | none => .error (.generic (unknownMsg t)) (subHelp reg)

/-- A string-typed validator: accepts an attached string value, rejects
boolean flags, token lists and absence (the argument is required). -/
def strValidator : RawValue → Except String Value
  | .str s => .ok (.vstr s)
  | .flagTrue => .error "Expected string, received boolean"
  | .list _ => .error "Expected string, received array"
  | .missing => .error "Required"

/-- The numeric value of a decimal digit character, if it is one. -/
def digitVal (c : Char) : Option Nat :=
  if '0' ≤ c ∧ c ≤ '9' then some (c.toNat - '0'.toNat) else none

/-- Accumulating decimal interpretation of a character list. -/
def natFromCharsAux : List Char → Nat → Option Nat
  | [], acc => some acc
  | c :: cs, acc =>
    match digitVal c with
    | some d => natFromCharsAux cs (acc * 10 + d)
    | none => none

/-- Decimal interpretation of a string, `none` on empty or non-digit
input (kernel-reducible stand-in for `String.toNat?`). -/
def strToNat (s : String) : Option Nat :=
  match s.data with
  | [] => none
  | cs => natFromCharsAux cs 0

/-- A number-typed validator: accepts a decimal string, rejects
everything else and absence. -/
def natValidator : RawValue → Except String Value
  | .str s =>
    match strToNat s with
    | some n => .ok (.vnat n)
    | none => .error ("Expected number, got " ++ s)
  | .flagTrue => .error "Expected number, received boolean"
  | .list _ => .error "Expected number, received array"
  | .missing => .error "Required"

/-- Example command schema: one required string argument `name` with
short alias `n` (the spec's example scenario A). -/
def cmdAdd : CommandDef :=
  ⟨"add", "add an item", [("name", ⟨strValidator, none, some "n", some "name to add"⟩)]⟩

/-- Example command schema: two required fixed-positional number
arguments `a` and `b`. -/
def cmdCalc : CommandDef :=
  ⟨"calc", "add two numbers",
   [("a", ⟨natValidator, some (.fixed 0), none, some "left operand"⟩),
    ("b", ⟨natValidator, some (.fixed 1), none, some "right operand"⟩)]⟩

/-- Example command schema for a second registry entry. -/
def cmdRemove : CommandDef :=
  ⟨"remove", "remove an item", [("id", ⟨natValidator, some (.fixed 0), none, some "item id"⟩)]⟩

/-- Example registry with subcommands `add` and `remove` (the spec's
example scenario E). -/
def demoReg : List (String × CommandDef) :=
  [("add", cmdAdd), ("remove", cmdRemove)]

/-- A registry that registers the literal name `--help` as a subcommand;
a legal value of `SubCommandMap`, whose keys are arbitrary strings. -/
def helpNamedReg : List (String × CommandDef) :=
  [("--help", cmdAdd)]

/-- An argument schema whose `short` alias is the two-character string
`xy`; a legal value of `QueryBase`, whose `short` field is `string`. -/
def badShortQuery : QueryBase :=
  ⟨strValidator, none, some "xy", none⟩

/-- The needle occurs somewhere inside the haystack string. -/
def appearsIn (needle hay : String) : Prop :=
  ∃ a b, hay = a ++ (needle ++ b)

/-- When no argument failed to decode, the collected data covers every
per-argument result key, in order. -/
theorem collectData_keys : ∀ rs : List (String × Except String Value),
    collectIssues rs = [] → (collectData rs).map Prod.fst = rs.map Prod.fst
  | [], _ => rfl
  | (k, .ok v) :: rs, h => by
    have h2 : collectIssues rs = [] := by simpa [collectIssues] using h
    simp [collectData, collectData_keys rs h2]
  | (k, .error m) :: rs, h => by
    simp [collectIssues] at h

/-- The keys of the collected issues are exactly the failing keys. -/
theorem collectIssues_keys : ∀ rs : List (String × Except String Value),
    (collectIssues rs).map Prod.fst = errKeys rs
  | [] => rfl
  | (k, .ok v) :: rs => by simp [collectIssues, errKeys, collectIssues_keys rs]
  | (k, .error m) :: rs => by simp [collectIssues, errKeys, collectIssues_keys rs]

/-- The per-argument results carry exactly the declared argument keys. -/
theorem argResults_keys (cmd : CommandDef) (tokens : List String) :
    (argResults cmd tokens).map Prod.fst = cmd.args.map Prod.fst := by
  simp [argResults, List.map_map]

/-- Every collected data entry comes from a successful decode of that key. -/
theorem mem_collectData : ∀ (rs : List (String × Except String Value)) (k : String) (v : Value),
    (k, v) ∈ collectData rs → (k, Except.ok v) ∈ rs
  | [], k, v, h => by simp [collectData] at h
  | (k2, .ok w) :: rs, k, v, h => by
    simp only [collectData] at h
    rcases List.mem_cons.mp h with h1 | h2
    · injection h1 with hk hv
      subst hk
      subst hv
      exact List.mem_cons_self _ _
    · exact List.mem_cons_of_mem _ (mem_collectData rs k v h2)
  | (k2, .error m) :: rs, k, v, h => by
    simp only [collectData] at h
    exact List.mem_cons_of_mem _ (mem_collectData rs k v h)

/-- A member of a line list occurs inside the joined line block. -/
theorem appearsIn_joinLines : ∀ (n : String) (l : List String),
    n ∈ l → appearsIn n (joinLines l)
  | n, [], h => absurd h (List.not_mem_nil n)
  | n, l :: ls, h => by
    rcases List.mem_cons.mp h with h1 | h2
    · subst h1
      exact ⟨"", "\n" ++ joinLines ls, by simp [joinLines, String.append_assoc]⟩
    · obtain ⟨a, b, hab⟩ := appearsIn_joinLines n ls h2
      exact ⟨l ++ "\n" ++ a, b, by simp [joinLines, hab, String.append_assoc]⟩

/-- Case analysis on the `positional` field: absent, a fixed index, or
the variadic marker. -/
theorem posSpec_cases (o : Option PosSpec) :
    o = none ∨ (∃ i, o = some (PosSpec.fixed i)) ∨ o = some PosSpec.variadic := by
  rcases o with _ | p
  · exact Or.inl rfl
  · cases p with
    | fixed i => exact Or.inr (Or.inl ⟨i, rfl⟩)
    | variadic => exact Or.inr (Or.inr rfl)

/-- Claim C1: every `CommandResult` of the command parser is exactly one
of the three variants — success (with decoded data), help (with rendered
help text), or error (with an error plus help text) — distinguished by an
explicit discriminant tag, with no other variant; the three tags are
pairwise distinct, so every caller can branch exhaustively on the tag. -/
theorem c1_result_trichotomy :
    ∀ r : CommandResult,
      ((∃ d, r = .success d ∧ r.tag = "success") ∨
       (∃ t, r = .help t ∧ r.tag = "help") ∨
       (∃ e t, r = .error e t ∧ r.tag = "error")) ∧
      ((("success" : String) == "help") = false ∧
       (("success" : String) == "error") = false ∧
       (("help" : String) == "error") = false) := by
  intro r
  refine ⟨?_, by decide⟩
  cases r with
  | success d => exact Or.inl ⟨d, rfl, rfl⟩
  | help t => exact Or.inr (Or.inl ⟨t, rfl, rfl⟩)
  | error e t => exact Or.inr (Or.inr ⟨e, t, rfl, rfl⟩)

/-- Claim C2 counterexample: the Zod-style `ParseError` variant of
`SafeParseResult` (types.ts lines 59-62) is an error-variant value of a
parse result type with no help-text component: its fields are exactly
`ok` and `error`, so the claim's "every error-variant value of any parse
result type carries help text" is false. -/
theorem c2_safeparse_error_lacks_help :
    (SafeParseResult.error (.generic "boom")).ok = false ∧
    ((SafeParseResult.error (.generic "boom")).fields.contains "helpText") = false ∧
    (SafeParseResult.error (.generic "boom")).fields = ["ok", "error"] := by
  exact ⟨rfl, by decide, rfl⟩

/-- Claim C2 (amended): every Error result of `parse` and
`parseSubcommand` — the `CommandResult` and `SubCommandResult` unions —
carries ready-to-print help text alongside the error detail, and the help
text is exactly the rendered command help (`renderHelp`) respectively the
registry help (`subHelp`); the Zod-style safe-parse error variant is the
exception and carries only the error. -/
theorem c2_error_carries_help :
    ∀ (cmd : CommandDef) (reg : List (String × CommandDef)) (tokens : List String)
      (r : CommandResult) (sr : SubCommandResult),
      (r.tag = "error" → "helpText" ∈ r.fields) ∧
      (sr.tag = "error" → "helpText" ∈ sr.fields) ∧
      (∀ e t, parse cmd tokens = .error e t → t = renderHelp cmd) ∧
      (∀ e t, parseSubcommand reg tokens = .error e t → t = subHelp reg) := by
  intro cmd reg tokens r sr
  refine ⟨?_, ?_, ?_, ?_⟩
  · intro h
    cases r with
    | success d => simp [CommandResult.tag] at h
    | help t => simp [CommandResult.tag] at h
    | error e t => simp [CommandResult.fields]
  · intro h
    cases sr with
    | subcommand n res => simp [SubCommandResult.tag] at h
    | help t => simp [SubCommandResult.tag] at h
    | error e t => simp [SubCommandResult.fields]
  · intro e t h
    unfold parse at h
    by_cases hh : "--help" ∈ tokens ∨ "-h" ∈ tokens
    · rw [if_pos hh] at h
      simp at h
    · rw [if_neg hh] at h
      by_cases he : collectIssues (argResults cmd tokens) = []
      · rw [if_pos he] at h
        simp at h
      · rw [if_neg he] at h
        injection h with h1 h2
        exact h2.symm
  · intro e t h
    cases tokens with
    | nil => simp [parseSubcommand] at h
    | cons t0 rest =>
      simp only [parseSubcommand] at h
      by_cases hh : t0 = "--help" ∨ t0 = "-h"
      · rw [if_pos hh] at h
        simp at h
      · rw [if_neg hh] at h
        rcases hL : List.lookup t0 reg with _ | cmd2
        · rw [hL] at h
          injection h with h1 h2
          exact h2.symm
        · rw [hL] at h
          simp at h

/-- Claim C2 witness: a concrete failing `parse` run whose error result
carries the rendered help text. -/
theorem c2_error_carries_help_witness :
    "helpText" ∈ (CommandResult.error (.zod [("name", "Required")]) (renderHelp cmdAdd)).fields ∧
    renderHelp cmdAdd = renderHelp cmdAdd :=
  ⟨(c2_error_carries_help cmdAdd [] []
      (.error (.zod [("name", "Required")]) (renderHelp cmdAdd)) (.help "")).1 rfl,
   (c2_error_carries_help cmdAdd [] [] (.help "") (.help "")).2.2.1
      (.zod [("name", "Required")]) (renderHelp cmdAdd) (by decide)⟩

/-- Claim C3 counterexample: a registry may register the literal name
`--help`; then the first token `--help` names a registered subcommand but
`parseSubcommand` returns the top-level Help result, not a wrapper tagged
`subcommand` — the spec's step-1 help short-circuit takes precedence. -/
theorem c3_registered_help_token_cex :
    List.lookup "--help" helpNamedReg = some cmdAdd ∧
    parseSubcommand helpNamedReg ["--help"] = .help (subHelp helpNamedReg) ∧
    (parseSubcommand helpNamedReg ["--help"]).tag = "help" ∧
    ((parseSubcommand helpNamedReg ["--help"]).tag == "subcommand") = false := by
  exact ⟨rfl, rfl, rfl, by decide⟩

/-- Claim C3 (amended): for every registry and token sequence whose first
token names a registered subcommand and is not a help flag,
`parseSubcommand` returns a wrapper tagged `subcommand` carrying the
matched name and the inner result of delegating the remaining tokens, and
the inner result's own discriminant is preserved for the caller even when
the inner result is itself Help or Error. -/
theorem c3_subcommand_wrapper_preserves_inner :
    ∀ (reg : List (String × CommandDef)) (t : String) (rest : List String)
      (cmd : CommandDef),
      t ≠ "--help" → t ≠ "-h" → List.lookup t reg = some cmd →
      parseSubcommand reg (t :: rest) = .subcommand t (parse cmd rest) ∧
      (parseSubcommand reg (t :: rest)).tag = "subcommand" ∧
      (parseSubcommand reg (t :: rest)).innerTag = some (parse cmd rest).tag := by
  intro reg t rest cmd h1 h2 hL
  have hnot : ¬(t = "--help" ∨ t = "-h") := by
    rintro (h | h)
    exacts [h1 h, h2 h]
  have hm : parseSubcommand reg (t :: rest) = .subcommand t (parse cmd rest) := by
    simp only [parseSubcommand]
    rw [if_neg hnot, hL]
  refine ⟨hm, ?_, ?_⟩
  · rw [hm]
    rfl
  · rw [hm]
    rfl

/-- Claim C3 witness: dispatching `add --help` through the demo registry
yields a `subcommand`-tagged wrapper whose inner result keeps its own
`help` discriminant. -/
theorem c3_wrapper_witness :
    parseSubcommand demoReg ["add", "--help"] = .subcommand "add" (parse cmdAdd ["--help"]) ∧
    (parse cmdAdd ["--help"]).tag = "help" ∧
    (parseSubcommand demoReg ["add", "--help"]).innerTag = some "help" := by
  have h := c3_subcommand_wrapper_preserves_inner demoReg "add" ["--help"] cmdAdd
    (by decide) (by decide) rfl
  refine ⟨h.1, rfl, ?_⟩
  rw [h.2.2]
  rfl

/-- Claim C4: every Success result of `parse` carries data keyed exactly
like the schema's `args` mapping — one entry per declared argument, no
extra keys — and each entry holds a value decoded by that argument's
validator. -/
theorem c4_success_keys :
    ∀ (cmd : CommandDef) (tokens : List String) (data : List (String × Value)),
      parse cmd tokens = .success data →
      data.map Prod.fst = cmd.args.map Prod.fst ∧
      ∀ k v, (k, v) ∈ data → (k, Except.ok v) ∈ argResults cmd tokens := by
  intro cmd tokens data h
  unfold parse at h
  by_cases hh : "--help" ∈ tokens ∨ "-h" ∈ tokens
  · rw [if_pos hh] at h
    simp at h
  · rw [if_neg hh] at h
    by_cases he : collectIssues (argResults cmd tokens) = []
    · rw [if_pos he] at h
      injection h with hd
      constructor
      · rw [← hd, collectData_keys _ he, argResults_keys]
      · intro k v hv
        rw [← hd] at hv
        exact mem_collectData _ k v hv
    · rw [if_neg he] at h
      simp at h

/-- Claim C4 witness: the spec's example scenario A — `--name Alice`
against the one-argument schema succeeds with exactly the key `name`. -/
theorem c4_success_keys_witness :
    [("name", Value.vstr "Alice")].map Prod.fst = cmdAdd.args.map Prod.fst ∧
    ("name", Except.ok (Value.vstr "Alice")) ∈ argResults cmdAdd ["--name", "Alice"] := by
  have h := c4_success_keys cmdAdd ["--name", "Alice"] [("name", Value.vstr "Alice")]
    (by decide)
  exact ⟨h.1, h.2 "name" (Value.vstr "Alice") (by decide)⟩

/-- Claim C5: for every command schema and every token sequence containing
the help flag token (`--help` or `-h`) anywhere, regardless of any other
tokens present, `parse` returns the Help result — so never an Error and
never a Success. -/
theorem c5_help_short_circuits :
    ∀ (cmd : CommandDef) (tokens : List String),
      "--help" ∈ tokens ∨ "-h" ∈ tokens →
      parse cmd tokens = .help (renderHelp cmd) ∧
      (parse cmd tokens).tag = "help" := by
  intro cmd tokens h
  have hm : parse cmd tokens = .help (renderHelp cmd) := by
    unfold parse
    rw [if_pos h]
  refine ⟨hm, ?_⟩
  rw [hm]
  rfl

/-- Claim C5 witness: a token list with `-h` amid other tokens yields the
Help result. -/
theorem c5_help_witness :
    parse cmdAdd ["x", "-h"] = .help (renderHelp cmdAdd) ∧
    (parse cmdAdd ["x", "-h"]).tag = "help" :=
  c5_help_short_circuits cmdAdd ["x", "-h"] (by decide)

/-- Claim C6: when two or more declared arguments fail to decode (and no
help flag is present), `parse` returns a single Error whose structured
zod detail lists exactly the failing argument keys — all of them, not
just the first; decoding does not short-circuit. -/
theorem c6_aggregate_errors :
    ∀ (cmd : CommandDef) (tokens : List String),
      ¬("--help" ∈ tokens ∨ "-h" ∈ tokens) →
      2 ≤ (failingKeys cmd tokens).length →
      parse cmd tokens =
        .error (.zod (collectIssues (argResults cmd tokens))) (renderHelp cmd) ∧
      (collectIssues (argResults cmd tokens)).map Prod.fst = failingKeys cmd tokens := by
  intro cmd tokens hh h2
  have hne : ¬ collectIssues (argResults cmd tokens) = [] := by
    intro he
    have hk := collectIssues_keys (argResults cmd tokens)
    rw [he] at hk
    simp only [List.map_nil] at hk
    rw [failingKeys, ← hk] at h2
    simp at h2
  refine ⟨?_, collectIssues_keys _⟩
  unfold parse
  rw [if_neg hh, if_neg hne]

/-- Claim C6 witness: two non-numeric positional tokens make both `a` and
`b` fail; the single aggregate error names both keys. -/
theorem c6_aggregate_witness :
    parse cmdCalc ["x", "y"] =
      .error (.zod (collectIssues (argResults cmdCalc ["x", "y"]))) (renderHelp cmdCalc) ∧
    (collectIssues (argResults cmdCalc ["x", "y"])).map Prod.fst =
      failingKeys cmdCalc ["x", "y"] :=
  c6_aggregate_errors cmdCalc ["x", "y"] (by decide) (by decide)

/-- Claim C7: for every registry and non-empty, non-help token sequence,
an unregistered first token yields a top-level Error whose message
contains that token and whose help text lists every registered name,
while a registered first token delegates the remaining tokens to the
matched command's `parse`, preserving the inner result. -/
theorem c7_unknown_subcommand :
    ∀ (reg : List (String × CommandDef)) (t : String) (rest : List String),
      t ≠ "--help" → t ≠ "-h" →
      (List.lookup t reg = none →
        parseSubcommand reg (t :: rest) = .error (.generic (unknownMsg t)) (subHelp reg) ∧
        appearsIn t (unknownMsg t) ∧
        ∀ p : String × CommandDef, p ∈ reg → appearsIn p.1 (subHelp reg)) ∧
      ∀ cmd, List.lookup t reg = some cmd →
        parseSubcommand reg (t :: rest) = .subcommand t (parse cmd rest) := by
  intro reg t rest h1 h2
  have hnot : ¬(t = "--help" ∨ t = "-h") := by
    rintro (h | h)
    exacts [h1 h, h2 h]
  constructor
  · intro hL
    refine ⟨?_, ⟨"Unknown subcommand: ", "", by simp [unknownMsg]⟩, ?_⟩
    · simp only [parseSubcommand]
      rw [if_neg hnot, hL]
    · intro p hp
      obtain ⟨a, b, hab⟩ :=
        appearsIn_joinLines p.1 (reg.map Prod.fst) (List.mem_map_of_mem Prod.fst hp)
      exact ⟨"Available subcommands:" ++ "\n" ++ a, b,
        by simp [subHelp, hab, String.append_assoc]⟩
  · intro cmd hL
    simp only [parseSubcommand]
    rw [if_neg hnot, hL]

/-- Claim C7 witness: the spec's example scenario E — `list` against the
`add`/`remove` registry yields a top-level Error naming `list`, with both
valid names listed in the help text. -/
theorem c7_unknown_witness :
    parseSubcommand demoReg ["list"] = .error (.generic (unknownMsg "list")) (subHelp demoReg) ∧
    appearsIn "list" (unknownMsg "list") ∧
    appearsIn "add" (subHelp demoReg) ∧
    appearsIn "remove" (subHelp demoReg) := by
  have h := (c7_unknown_subcommand demoReg "list" [] (by decide) (by decide)).1 rfl
  exact ⟨h.1, h.2.1,
    h.2.2 ("add", cmdAdd) (List.mem_cons_self _ _),
    h.2.2 ("remove", cmdRemove) (List.mem_cons_of_mem _ (List.mem_cons_self _ _))⟩

/-- Claim C8: both parsers are pure functions of (schema, raw tokens) in
this embedding — no state persists across invocations — so parsing the
same token sequence against the same schema twice yields structurally
equal results. -/
theorem c8_pure_and_idempotent :
    ∀ (cmd : CommandDef) (reg : List (String × CommandDef)) (tokens : List String),
      parse cmd tokens = parse cmd tokens ∧
      parseSubcommand reg tokens = parseSubcommand reg tokens :=
  fun _ _ _ => ⟨rfl, rfl⟩

/-- Claim C9 counterexample: `QueryBase` declares `short?: string` with no
length restriction, so an argument schema with the two-character short
alias `xy` is a legal value — the claimed "length exactly one" invariant
is not enforced by the type. -/
theorem c9_two_char_short_alias_cex :
    badShortQuery.short = some "xy" ∧ "xy".length = 2 ∧ ("xy".length == 1) = false := by
  exact ⟨rfl, by decide, by decide⟩

/-- Claim C9 (amended): every Argument Schema consists of a required
value validator plus three optional fields — a positional binding that is
either a fixed numeric index or the variadic marker, a short alias, and a
description — where the short alias is an arbitrary optional string (the
single-character form is a convention the type does not enforce). -/
theorem c9_querybase_shape :
    ∀ q : QueryBase,
      q = QueryBase.mk q.type q.positional q.short q.description ∧
      (q.positional = none ∨ (∃ i, q.positional = some (PosSpec.fixed i)) ∨
        q.positional = some PosSpec.variadic) := by
  intro q
  exact ⟨rfl, posSpec_cases q.positional⟩

/-- Claim C10: the Zod-style safe-parse subcommand result has no help
variant — every `SubCommandSafeParseResult` is either a success carrying
the matched command name and data, or an error carrying only an error
value, whose fields are exactly `ok` and `error` with no help text, so a
top-level help request cannot be represented in this shape. -/
theorem c10_safeparse_has_no_help_variant :
    ∀ r : SubCommandSafeParseResult,
      ((∃ c d, r = .success c d ∧ r.ok = true) ∨
       (∃ e, r = .error e ∧ r.ok = false)) ∧
      (r.fields.contains "helpText") = false ∧
      (r.ok = false → r.fields = ["ok", "error"]) := by
  intro r
  cases r with
  | success c d =>
    exact ⟨Or.inl ⟨c, d, rfl, rfl⟩, rfl, fun h => by simp [SubCommandSafeParseResult.ok] at h⟩
  | error e =>
    exact ⟨Or.inr ⟨e, rfl, rfl⟩, rfl, fun _ => rfl⟩

/-- Claim C10 witness: a concrete safe-parse error value has exactly the
fields `ok` and `error` and no help text. -/
theorem c10_safeparse_witness :
    ((SubCommandSafeParseResult.error (.generic "fail")).fields.contains "helpText") = false ∧
    (SubCommandSafeParseResult.error (.generic "fail")).fields = ["ok", "error"] :=
  ⟨(c10_safeparse_has_no_help_variant (.error (.generic "fail"))).2.1,
   (c10_safeparse_has_no_help_variant (.error (.generic "fail"))).2.2 rfl⟩

end Zodcli
